/-
Verification of the Telebiz core-logic specification against the source.

This file shallowly embeds the two core components of the repository:

* the natural-language reminder-time resolver `parseRemindAt`
  (src/unnamed/part_000, lines 348-409) together with the reminder tool
  executors `executeCreateReminder` / `executeUpdateReminder`
  (same file, lines 210-327), and
* the entity-form schema builder: `sortFieldsByPriority`,
  `buildFormFieldsFromProperties` and the static `forms` table
  (src/unnamed/part_003), the `EntityForm` field construction
  (src/unnamed/part_000, lines 445-531), `MINIMAL_FIELDS`
  (ProviderEntityForm/minimalFields.ts) and `normalizeFieldValue`
  (ProviderEntityForm/normalizeFieldValue.ts).

Modelling conventions:

* JavaScript `Date` objects are modelled as an `Int` of milliseconds on a
  local civil timeline with a fixed UTC offset (no DST transitions); day
  boundaries sit at multiples of 86400000.  `setHours`/`setDate` then
  coincide with the arithmetic used below, including the JS normalisation of
  out-of-range hour values.
* JS numbers are modelled as exact integers (`Int`/`Nat`).
* The host JavaScript date parser used by `new Date(string)` is
  implementation-defined; it is passed in as an arbitrary function
  `jsParse : List Char → Option Int`.  All claims below concern inputs on
  which the source guards that branch away (no hyphen in the string).
* Strings are handled as `List Char`; `toLowerCase`/`trim` are modelled for
  the ASCII inputs the claims are about.
* External collaborators that are not part of the corpus
  (`getPropertyType`, `useProviderProperty`, `formatSnakeCaseLabel`,
  `decodeEntityId`, `convertNotionPropertiesToFormFields`, the REST client)
  are universally quantified function parameters, so every theorem holds
  for any implementation of them.
-/
import Mathlib

set_option linter.unusedVariables false

namespace Telebiz

/-! ## Time model -/

def msPerDay : Int := 86400000

/-- JS `Date.prototype.setHours(h, m, 0, 0)` in the fixed-offset model:
keep the civil day of `t`, set the time of day to `h` hours `m` minutes.
JS normalises out-of-range `h`/`m` by carrying into the day, which the
plain arithmetic below reproduces. -/
def setHours (t : Int) (h m : Nat) : Int :=
  (t.ediv msPerDay) * msPerDay + ((h * 3600000 + m * 60000 : Nat) : Int)

/-! ## Character-level helpers for the regexes in `parseRemindAt` -/

def isWs (c : Char) : Bool := c.isWhitespace

def dval (c : Char) : Nat := c.toNat - 48

/-- Model of `parseInt` on a digit string. -/
def digitsToNat (ds : List Char) : Nat :=
  ds.foldl (fun a c => a * 10 + dval c) 0

/-- Drop the word `w` from the front of `s` when it is a prefix. -/
def dropPre : List Char → List Char → Option (List Char)
  | [], s => some s
  | _ :: _, [] => none
  | c :: w, d :: s => if c = d then dropPre w s else none

inductive Mer where
  | am
  | pm
deriving DecidableEq, Repr

/-- The two sequential 12-hour adjustments of the source:
`if (ampm is pm && hours < 12) hours += 12;`
`if (ampm is am && hours === 12) hours = 0;`. -/
def adjustHours (h : Nat) (mer : Option Mer) : Nat :=
  let h1 := if mer = some .pm ∧ h < 12 then h + 12 else h
  if mer = some .am ∧ h1 = 12 then 0 else h1

/-- The time-unit table of the relative branch (values in ms). -/
inductive TimeUnit where
  | minute
  | hour
  | day
  | week
deriving DecidableEq, Repr

def unitMs : TimeUnit → Int
  | .minute => 60000
  | .hour => 3600000
  | .day => 86400000
  | .week => 604800000

def unitChars : TimeUnit → List Char
  | .minute => ['m', 'i', 'n', 'u', 't', 'e']
  | .hour => ['h', 'o', 'u', 'r']
  | .day => ['d', 'a', 'y']
  | .week => ['w', 'e', 'e', 'k']

/-- Regex `/^in\s+(\d+)\s+(minute|hour|day|week)s?$/` on the lowered, trimmed
input.  The character classes of adjacent atoms are disjoint, so the
greedy scan below has the same matches as the backtracking regex. -/
def inMatch (s : List Char) : Option (Nat × Int) :=
  match s with
  | 'i' :: 'n' :: r1 =>
    match r1 with
    | c :: _ =>
      if isWs c then
        let r2 := r1.dropWhile isWs
        let ds := r2.takeWhile Char.isDigit
        if ds.isEmpty then none
        else
          let r3 := r2.dropWhile Char.isDigit
          match r3 with
          | c2 :: _ =>
            if isWs c2 then
              let r4 := r3.dropWhile isWs
              match unitOf r4 with
              | some (ms, r5) =>
                if r5 = [] ∨ r5 = ['s'] then some (digitsToNat ds, ms) else none
              | none => none
            else none
          | [] => none
      else none
    | [] => none
  | _ => none
where
  unitOf (s : List Char) : Option (Int × List Char) :=
    match dropPre (unitChars .minute) s with
    | some r => some (60000, r)
    | none =>
      match dropPre (unitChars .hour) s with
      | some r => some (3600000, r)
      | none =>
        match dropPre (unitChars .day) s with
        | some r => some (86400000, r)
        | none =>
          match dropPre (unitChars .week) s with
          | some r => some (604800000, r)
          | none => none

/-- The unanchored search `/(\d{1,2})(?::(\d{2}))?\s*(am|pm)?/` of the
`tomorrow` branch.  Every atom after the leading digit is optional, so the
regex matches exactly at the first digit of the string. -/
def timeSearch : List Char → Option (Nat × Nat × Option Mer)
  | [] => none
  | c :: rest =>
    if c.isDigit then
      let (h, r2) :=
        match rest with
        | c2 :: r2' => if c2.isDigit then (dval c * 10 + dval c2, r2') else (dval c, rest)
        | [] => (dval c, ([] : List Char))
      let (m, r3) :=
        match r2 with
        | ':' :: a :: b :: r3' =>
          if a.isDigit && b.isDigit then (dval a * 10 + dval b, r3') else (0, r2)
        | _ => (0, r2)
      let r4 := r3.dropWhile isWs
      match r4 with
      | 'a' :: 'm' :: _ => some (h, m, some .am)
      | 'p' :: 'm' :: _ => some (h, m, some .pm)
      | _ => some (h, m, none)
    else timeSearch rest

/-- The optional word-plus-whitespace groups `(?:today\s+)?` / `(?:at\s+)?`.
`\s+` needs at least one whitespace character; when the group cannot match
it is skipped.  (Skipping a matchable group can never rescue the anchored
match, since the words start with non-digit letters, so no further
backtracking is needed.) -/
def stripWordWs (w : List Char) (s : List Char) : List Char :=
  match dropPre w s with
  | some rest =>
    match rest with
    | c :: _ => if isWs c then rest.dropWhile isWs else s
    | [] => s
  | none => s

/-- Regex of the today branch, anchored on both sides, applied to the
lowered, trimmed input. -/
def todayMatch (s : List Char) : Option (Nat × Nat × Option Mer) :=
  let s1 := stripWordWs ['t', 'o', 'd', 'a', 'y'] s
  let s2 := stripWordWs ['a', 't'] s1
  match s2 with
  | c :: rest =>
    if c.isDigit then
      let (h, r2) :=
        match rest with
        | c2 :: r2' => if c2.isDigit then (dval c * 10 + dval c2, r2') else (dval c, rest)
        | [] => (dval c, ([] : List Char))
      let (m, r3) :=
        match r2 with
        | ':' :: a :: b :: r3' =>
          if a.isDigit && b.isDigit then (dval a * 10 + dval b, r3') else (0, r2)
        | _ => (0, r2)
      let r4 := r3.dropWhile isWs
      match r4 with
      | 'a' :: 'm' :: r5 => if r5 = [] then some (h, m, some .am) else none
      | 'p' :: 'm' :: r5 => if r5 = [] then some (h, m, some .pm) else none
      | [] => some (h, m, none)
      | _ => none
    else none
  | [] => none

/-- Model of `input.toLowerCase().trim()` for the ASCII inputs at hand. -/
def trimL (l : List Char) : List Char :=
  ((l.dropWhile isWs).reverse.dropWhile isWs).reverse

def toLowerTrim (l : List Char) : List Char :=
  trimL (l.map Char.toLower)

def tomorrowChars : List Char := ['t', 'o', 'm', 'o', 'r', 'r', 'o', 'w']

/-- Resolver `parseRemindAt` (src/unnamed/part_000, lines 348-409).  `jsParse` is the
host `new Date(string)` parser (implementation-defined, hence a parameter);
`now` is the reference clock. -/
def parseRemindAt (jsParse : List Char → Option Int) (input : List Char) (now : Int) :
    Option Int :=
  if (jsParse input).isSome && input.contains '-' then jsParse input
  else
    let lower := toLowerTrim input
    match inMatch lower with
    | some (amount, ms) => some (now + amount * ms)
    | none =>
      if tomorrowChars.isPrefixOf lower then
        let tomorrow := now + msPerDay
        match timeSearch lower with
        | some (h, m, mer) => some (setHours tomorrow (adjustHours h mer) m)
        | none => some (setHours tomorrow 9 0)
      else
        match todayMatch lower with
        | some (h, m, mer) => some (setHours now (adjustHours h mer) m)
        | none => none

/-! ## Character and list facts used to run the matchers on symbolic input -/

theorem toLower_digit (c : Char) (h : c.isDigit = true) : c.toLower = c := by
  unfold Char.toLower
  simp only [Char.isDigit, Bool.and_eq_true, decide_eq_true_eq] at h
  have hn : c.toNat ≤ 57 := h.2
  rw [if_neg]; omega

theorem ws_digit (c : Char) (h : c.isDigit = true) : isWs c = false := by
  simp only [Char.isDigit, Bool.and_eq_true, decide_eq_true_eq] at h
  have h1 : 48 ≤ c.toNat := h.1
  have h2 : c.toNat ≤ 57 := h.2
  simp only [isWs, Char.isWhitespace, Bool.or_eq_false_iff, decide_eq_false_iff_not]
  refine ⟨⟨⟨?_, ?_⟩, ?_⟩, ?_⟩ <;> intro hc <;> subst hc <;>
    (have w1 : (' ').toNat = 32 := rfl
     have w2 : ('\t').toNat = 9 := rfl
     have w3 : ('\x0d').toNat = 13 := rfl
     have w4 : ('\n').toNat = 10 := rfl
     omega)

theorem ne_dash_digit (c : Char) (h : c.isDigit = true) : ¬(c = '-') := by
  simp only [Char.isDigit, Bool.and_eq_true, decide_eq_true_eq] at h
  have h1 : 48 ≤ c.toNat := h.1
  intro hc; subst hc
  have h45 : ('-').toNat = 45 := rfl
  omega

theorem takeWhile_append_all {p : Char → Bool} (l1 l2 : List Char)
    (h : ∀ c ∈ l1, p c = true) :
    (l1 ++ l2).takeWhile p = l1 ++ l2.takeWhile p := by
  induction l1 with
  | nil => simp
  | cons c t ih =>
    simp only [List.cons_append, List.takeWhile_cons, h c (by simp), if_pos,
      List.cons.injEq, true_and]
    exact ih (fun d hd => h d (by simp [hd]))

theorem dropWhile_append_all {p : Char → Bool} (l1 l2 : List Char)
    (h : ∀ c ∈ l1, p c = true) :
    (l1 ++ l2).dropWhile p = l2.dropWhile p := by
  induction l1 with
  | nil => simp
  | cons c t ih =>
    simp only [List.cons_append, List.dropWhile_cons, h c (by simp)]
    exact ih (fun d hd => h d (by simp [hd]))

theorem contains_eq_false_of_not_mem {c : Char} {l : List Char} (h : ¬c ∈ l) :
    l.contains c = false := by
  simpa using h

theorem trimL_eq_self_of (l : List Char)
    (hhead : ∀ c t, l = c :: t → isWs c = false)
    (hlast : ∀ x, l.getLast? = some x → isWs x = false) :
    trimL l = l := by
  unfold trimL
  cases l with
  | nil => rfl
  | cons c t =>
    rw [List.dropWhile_cons, hhead c t rfl]
    simp only [Bool.false_eq_true, if_false]
    cases hr : (c :: t).reverse with
    | nil => simp at hr
    | cons x r =>
      have hx : (c :: t).getLast? = some x := by
        rw [← List.head?_reverse, hr]; rfl
      rw [List.dropWhile_cons, hlast x hx]
      simp only [Bool.false_eq_true, if_false]
      rw [← hr, List.reverse_reverse]

theorem trimL_extend (c x : Char) (m : List Char) (hc : isWs c = false)
    (hx : isWs x = false) : trimL (c :: (m ++ [x])) = c :: (m ++ [x]) := by
  unfold trimL
  rw [List.dropWhile_cons, hc]
  simp only [Bool.false_eq_true, if_false]
  have hrev : (c :: (m ++ [x])).reverse = x :: (m.reverse ++ [c]) := by simp
  rw [hrev, List.dropWhile_cons, hx]
  simp only [Bool.false_eq_true, if_false]
  rw [← hrev, List.reverse_reverse]

theorem dropPre_self (w r : List Char) : dropPre w (w ++ r) = some r := by
  induction w with
  | nil => rfl
  | cons c t ih => simp [dropPre, ih]

/-! ## C2: "5pm" versus "today at 5" -/

/-- C2 (amended):  For every host date parser and reference time `now`,
`resolve("5pm")` returns the calendar date of `now` at 17:00:00.000 local and
`resolve("today at 5")` returns the calendar date of `now` at 05:00:00.000 local
(seconds and milliseconds zeroed in both).  The optional-prefix equivalence
holds in the form `resolve("today at 5pm") = resolve("5pm")`, but a bare
hour with no meridiem is taken literally, so the two inputs of the claim
differ by twelve hours. -/
theorem c2_resolve_5pm_today_at_5 (jsParse : List Char → Option Int) (now : Int) :
    parseRemindAt jsParse ['5', 'p', 'm'] now
      = some ((now.ediv msPerDay) * msPerDay + 61200000)
    ∧ parseRemindAt jsParse ['t', 'o', 'd', 'a', 'y', ' ', 'a', 't', ' ', '5'] now
      = some ((now.ediv msPerDay) * msPerDay + 18000000)
    ∧ parseRemindAt jsParse ['t', 'o', 'd', 'a', 'y', ' ', 'a', 't', ' ', '5', 'p', 'm'] now
      = parseRemindAt jsParse ['5', 'p', 'm'] now := by
  have h1 : (['5', 'p', 'm'] : List Char).contains '-' = false := by decide
  have h2 : (['t', 'o', 'd', 'a', 'y', ' ', 'a', 't', ' ', '5'] : List Char).contains '-'
      = false := by decide
  have h3 : (['t', 'o', 'd', 'a', 'y', ' ', 'a', 't', ' ', '5', 'p', 'm'] : List Char).contains '-'
      = false := by decide
  refine ⟨?_, ?_, ?_⟩ <;>
    simp only [parseRemindAt, h1, h2, h3, Bool.and_false, Bool.false_eq_true, if_false] <;>
    rfl

/-- C2 (counterexample):  At the concrete reference time `now = 0`,
`resolve("today at 5")` yields 05:00:00 while `resolve("5pm")` yields
17:00:00, so the two inputs do not resolve to the same timestamp, and
`"today at 5"` does not resolve to 17:00 as the claim states. -/
theorem c2_counterexample :
    parseRemindAt (fun _ => none) ['5', 'p', 'm'] 0 = some 61200000
    ∧ parseRemindAt (fun _ => none) ['t', 'o', 'd', 'a', 'y', ' ', 'a', 't', ' ', '5'] 0
      = some 18000000
    ∧ parseRemindAt (fun _ => none) ['t', 'o', 'd', 'a', 'y', ' ', 'a', 't', ' ', '5'] 0
      ≠ parseRemindAt (fun _ => none) ['5', 'p', 'm'] 0 := by
  refine ⟨by decide, by decide, by decide⟩

/-! ## C6: relative offsets "in N unit[s]" -/

/-- The raw input string `"in " ++ N ++ " " ++ unit ++ (s?)`, with the
integer N ≥ 0 given by an arbitrary nonempty decimal digit string. -/
def inInput (ds : List Char) (u : TimeUnit) (plural : Bool) : List Char :=
  'i' :: 'n' :: ' ' :: (ds ++ ' ' :: (unitChars u ++ if plural then ['s'] else []))

/-- C6 (confirmed):  For every host date parser, reference time `now`,
integer `N ≥ 0` (written as a nonempty digit string `ds`), unit in
{minute, hour, day, week} and optional plural `s`, resolving
`"in N unit[s]"` returns exactly `now + N × d` where `d` is
60000 ms (= 60 s) for minute, 3600000 ms for hour, 86400000 ms for day and
604800000 ms for week — fixed-duration arithmetic with no drift and no
calendar/DST adjustment (JS numbers modelled as exact integers). -/
theorem c6_resolve_relative (jsParse : List Char → Option Int) (now : Int)
    (ds : List Char) (u : TimeUnit) (plural : Bool)
    (hne : ds ≠ []) (hdig : ∀ c ∈ ds, c.isDigit = true) :
    parseRemindAt jsParse (inInput ds u plural) now
      = some (now + (digitsToNat ds : Int) * unitMs u) := by
  obtain ⟨d, ds', rfl⟩ : ∃ d ds', ds = d :: ds' := by
    cases ds with
    | nil => exact absurd rfl hne
    | cons d t => exact ⟨d, t, rfl⟩
  -- the raw string contains no hyphen
  have hnd : ¬('-' ∈ inInput (d :: ds') u plural) := by
    intro hm
    simp only [inInput, List.mem_cons, List.mem_append] at hm
    rcases hm with h | h | h | h | h | h | h
    · exact absurd h (by decide)
    · exact absurd h (by decide)
    · exact absurd h (by decide)
    · exact ne_dash_digit '-' (hdig '-' (List.mem_cons.mpr h)) rfl
    · exact absurd h (by decide)
    · revert h; cases u <;> decide
    · revert h; cases plural <;> simp_all
  have hlow : (inInput (d :: ds') u plural).map Char.toLower = inInput (d :: ds') u plural := by
    have hds : (d :: ds').map Char.toLower = d :: ds' := by
      conv_rhs => rw [← List.map_id (d :: ds')]
      exact List.map_congr_left (fun c hc => toLower_digit c (hdig c hc))
    have hu : (unitChars u).map Char.toLower = unitChars u := by cases u <;> rfl
    have ht : (if plural then ['s'] else []).map Char.toLower
        = (if plural then ['s'] else ([] : List Char)) := by cases plural <;> rfl
    simp only [inInput, List.map_cons, List.map_append, hds, hu, ht]
    rfl
  have hshape : ∃ init lastc, (unitChars u ++ (if plural then ['s'] else [])
      = init ++ [lastc]) ∧ isWs lastc = false := by
    cases u <;> cases plural
    · exact ⟨['m', 'i', 'n', 'u', 't'], 'e', rfl, by decide⟩
    · exact ⟨['m', 'i', 'n', 'u', 't', 'e'], 's', rfl, by decide⟩
    · exact ⟨['h', 'o', 'u'], 'r', rfl, by decide⟩
    · exact ⟨['h', 'o', 'u', 'r'], 's', rfl, by decide⟩
    · exact ⟨['d', 'a'], 'y', rfl, by decide⟩
    · exact ⟨['d', 'a', 'y'], 's', rfl, by decide⟩
    · exact ⟨['w', 'e', 'e'], 'k', rfl, by decide⟩
    · exact ⟨['w', 'e', 'e', 'k'], 's', rfl, by decide⟩
  have htrim : trimL (inInput (d :: ds') u plural) = inInput (d :: ds') u plural := by
    obtain ⟨init, lastc, heq, hlastc⟩ := hshape
    have hshape2 : inInput (d :: ds') u plural
        = 'i' :: (('n' :: ' ' :: ((d :: ds') ++ ' ' :: init)) ++ [lastc]) := by
      simp [inInput, heq]
    rw [hshape2]
    exact trimL_extend _ _ _ (by decide) hlastc
  have hltid : toLowerTrim (inInput (d :: ds') u plural) = inInput (d :: ds') u plural := by
    unfold toLowerTrim; rw [hlow, htrim]
  have hdws : isWs d = false := ws_digit d (hdig d (by simp))
  have hwsp : isWs ' ' = true := rfl
  have htk : ∀ r : List Char, (d :: (ds' ++ ' ' :: r)).takeWhile Char.isDigit = d :: ds' := by
    intro r
    have h := takeWhile_append_all (p := Char.isDigit) (d :: ds') (' ' :: r) hdig
    simpa [List.takeWhile_cons, show Char.isDigit ' ' = false from rfl] using h
  have hdr : ∀ r : List Char, (d :: (ds' ++ ' ' :: r)).dropWhile Char.isDigit = ' ' :: r := by
    intro r
    have h := dropWhile_append_all (p := Char.isDigit) (d :: ds') (' ' :: r) hdig
    simpa [List.dropWhile_cons, show Char.isDigit ' ' = false from rfl] using h
  have hin : inMatch (inInput (d :: ds') u plural)
      = some (digitsToNat (d :: ds'), unitMs u) := by
    cases u <;> cases plural <;>
      simp [inInput, inMatch, inMatch.unitOf, dropPre, unitChars, unitMs,
        List.dropWhile_cons, hdws, hwsp, htk, hdr]
  have hcontains : (inInput (d :: ds') u plural).contains '-' = false :=
    contains_eq_false_of_not_mem hnd
  unfold parseRemindAt
  rw [hcontains, Bool.and_false]
  simp only [Bool.false_eq_true, if_false]
  rw [hltid, hin]

/-- C6 (witness):  The example given in the spec:
`resolve("in 2 hours", now = 0)` is exactly two hours after `now`. -/
theorem c6_witness :
    (['2'] : List Char) ≠ []
    ∧ parseRemindAt (fun _ => none) (inInput ['2'] .hour true) 0 = some 7200000 := by
  refine ⟨by decide, ?_⟩
  have h := c6_resolve_relative (fun _ => none) 0 ['2'] .hour true (by decide) (by decide)
  simpa [digitsToNat, dval, unitMs] using h

/-! ## C7: the "tomorrow" branch -/

theorem day_of_offset (a b : Int) (hb : 0 ≤ b) (hlt : b < 86400000) :
    (a * 86400000 + b).ediv 86400000 = a := by
  show (a * 86400000 + b) / 86400000 = a
  rw [add_comm, Int.add_mul_ediv_right _ _ (show (86400000 : Int) ≠ 0 by norm_num),
    Int.ediv_eq_zero_of_lt hb hlt, zero_add]

theorem next_day_ediv (now : Int) :
    (now + msPerDay).ediv msPerDay = now.ediv msPerDay + 1 := by
  show (now + msPerDay) / msPerDay = now / msPerDay + 1
  have h0 : (msPerDay : Int) ≠ 0 := by norm_num [msPerDay]
  calc (now + msPerDay) / msPerDay = (now + 1 * msPerDay) / msPerDay := by ring_nf
    _ = now / msPerDay + 1 := Int.add_mul_ediv_right _ _ h0

/-- C7 (amended):  For every host date parser, reference time `now` and
input whose trimmed lowercase form starts with `tomorrow` — provided the
absolute-date fast path does not fire (the raw string has no hyphen, or the
host parser rejects it):
if the input contains no digit (no clock time), the result is exactly
09:00:00.000 local on the calendar day after `now`; and if the first clock
time `H[:MM][am|pm]` found in the input satisfies, after the 12-hour
adjustment (`pm` with parsed hour < 12 adds 12, `am` with hour 12 gives 0),
`adjusted·3600000 + MM·60000 < 86400000`, the result has that hour/minute
with seconds and milliseconds zeroed, on the calendar day after `now`.
(The original claim is false without the last proviso: the lenient regex
also matches out-of-range values such as `"tomorrow 25"`, which JS
`setHours` carries over into later days — see the counterexample.) -/
theorem c7_resolve_tomorrow (jsParse : List Char → Option Int) (now : Int)
    (input rest : List Char)
    (hiso : (jsParse input).isSome = false ∨ input.contains '-' = false)
    (hpre : toLowerTrim input = tomorrowChars ++ rest) :
    (timeSearch (toLowerTrim input) = none →
      parseRemindAt jsParse input now
        = some ((now.ediv msPerDay + 1) * msPerDay + 32400000)
      ∧ ((now.ediv msPerDay + 1) * msPerDay + 32400000).ediv msPerDay
          = now.ediv msPerDay + 1)
    ∧ (∀ h m mer, timeSearch (toLowerTrim input) = some (h, m, mer) →
        parseRemindAt jsParse input now
          = some ((now.ediv msPerDay + 1) * msPerDay
              + ((adjustHours h mer * 3600000 + m * 60000 : Nat) : Int))
        ∧ ((adjustHours h mer * 3600000 + m * 60000 : Nat) < 86400000 →
            ((now.ediv msPerDay + 1) * msPerDay
              + ((adjustHours h mer * 3600000 + m * 60000 : Nat) : Int)).ediv msPerDay
              = now.ediv msPerDay + 1)) := by
  have hbranch : parseRemindAt jsParse input now
      = match timeSearch (toLowerTrim input) with
        | some (h, m, mer) => some (setHours (now + msPerDay) (adjustHours h mer) m)
        | none => some (setHours (now + msPerDay) 9 0) := by
    unfold parseRemindAt
    have hcond : ((jsParse input).isSome && input.contains '-') = false := by
      rcases hiso with h | h <;> rw [h] <;> simp
    rw [hcond]
    simp only [Bool.false_eq_true, if_false]
    have hinm : inMatch (toLowerTrim input) = none := by rw [hpre]; rfl
    rw [hinm]
    have hpref : tomorrowChars.isPrefixOf (toLowerTrim input) = true := by
      rw [hpre]
      exact List.isPrefixOf_iff_prefix.mpr (List.prefix_append _ _)
    rw [hpref]
    simp
  have hsetH : ∀ hh mm : Nat, setHours (now + msPerDay) hh mm
      = (now.ediv msPerDay + 1) * msPerDay + ((hh * 3600000 + mm * 60000 : Nat) : Int) := by
    intro hh mm
    unfold setHours
    rw [next_day_ediv]
  constructor
  · intro hnone
    have hred : parseRemindAt jsParse input now = some (setHours (now + msPerDay) 9 0) := by
      rw [hbranch, hnone]
    rw [hred, hsetH]
    refine ⟨by norm_num, ?_⟩
    exact day_of_offset _ _ (by norm_num) (by norm_num)
  · intro h m mer hsome
    have hred : parseRemindAt jsParse input now
        = some (setHours (now + msPerDay) (adjustHours h mer) m) := by
      rw [hbranch, hsome]
    rw [hred, hsetH]
    exact ⟨rfl, fun hlt => day_of_offset _ _ (by positivity) (by exact_mod_cast hlt)⟩

/-- C7 (witness):  The example of the spec, `resolve("tomorrow 9am")`, with a
mid-day reference time lands at 09:00:00.000 on the next calendar day. -/
theorem c7_witness :
    ((fun _ => none : List Char → Option Int)
        (['t', 'o', 'm', 'o', 'r', 'r', 'o', 'w', ' ', '9', 'a', 'm'])).isSome = false
    ∧ toLowerTrim ['t', 'o', 'm', 'o', 'r', 'r', 'o', 'w', ' ', '9', 'a', 'm']
        = tomorrowChars ++ [' ', '9', 'a', 'm']
    ∧ parseRemindAt (fun _ => none)
        ['t', 'o', 'm', 'o', 'r', 'r', 'o', 'w', ' ', '9', 'a', 'm'] 259212345
      = some 378000000 := by
  refine ⟨rfl, by decide, ?_⟩
  have h := (c7_resolve_tomorrow (fun _ => none) 259212345
    ['t', 'o', 'm', 'o', 'r', 'r', 'o', 'w', ' ', '9', 'a', 'm'] [' ', '9', 'a', 'm']
    (Or.inl rfl) (by decide)).2 9 0 (some .am) (by decide)
  rw [h.1]
  decide

/-- C7 (counterexample):  `resolve("tomorrow 25", now = 0)` returns
02:00 days after `now` at 01:00:00 — `setHours(25, 0)` carries past the
next calendar day — so not every `tomorrow`-prefixed input yields a
timestamp on the calendar day after `now`. -/
theorem c7_counterexample :
    parseRemindAt (fun _ => none) ['t', 'o', 'm', 'o', 'r', 'r', 'o', 'w', ' ', '2', '5'] 0
      = some 176400000
    ∧ (176400000 : Int).ediv msPerDay ≠ (0 : Int).ediv msPerDay + 1 := by
  exact ⟨by decide, by decide⟩

/-! ## C8: the reminder tool executors

The executors call two external collaborators: the REST client
(`telebizApiClient.reminders.*`) and the state-refresh action
(`loadTelebizReminders`).  Both are modelled by recording the calls the
executor makes in an emitted trace (`List ApiCall`); the REST call's
outcome is an `Except` parameter (`.error e` models a thrown `Error` whose
message is `e`).  `toISO` models `Date.prototype.toISOString`. -/

structure ToolResult where
  success : Bool
  error : Option String := none
deriving DecidableEq, Repr

inductive ApiCall where
  | createRem (chatId : String) (messageId : Option String) (descr : String)
      (remindAtISO : String) (orgId : Option Nat)
  | updateRem (reminderId : Nat) (updDescr : Option String) (updRemindAt : Option String)
  | loadReminders
deriving DecidableEq, Repr

structure CreateReminderArgs where
  chatId : String
  descr : String
  remindAt : String
  messageId : Option String := none
deriving DecidableEq, Repr

structure UpdateReminderArgs where
  reminderId : Nat
  descr : Option String := none
  remindAt : Option String := none
deriving DecidableEq, Repr

/-- Executor `executeCreateReminder` (src/unnamed/part_000, lines 210-249). -/
def executeCreateReminder (toISO : Int → String) (jsParse : List Char → Option Int)
    (now : Int) (orgId : Option Nat) (args : CreateReminderArgs)
    (apiResult : Except String Nat) : ToolResult × List ApiCall :=
  match parseRemindAt jsParse args.remindAt.data now with
  | none =>
    ({ success := false, error := some ("Could not parse reminder time: " ++ args.remindAt) },
      [])
  | some t =>
    match apiResult with
    | .ok _ =>
      ({ success := true },
        [.createRem args.chatId args.messageId args.descr (toISO t) orgId, .loadReminders])
    | .error e =>
      ({ success := false, error := some ("Failed to create reminder: " ++ e) },
        [.createRem args.chatId args.messageId args.descr (toISO t) orgId])

/-- Executor `executeUpdateReminder` (src/unnamed/part_000, lines 293-327).  JS
truthiness of `args.description` / `args.remindAt` treats both `undefined`
and the empty string as absent. -/
def executeUpdateReminder (toISO : Int → String) (jsParse : List Char → Option Int)
    (now : Int) (args : UpdateReminderArgs) (apiResult : Except String Unit) :
    ToolResult × List ApiCall :=
  let updDescr : Option String :=
    match args.descr with
    | some d => if d ≠ "" then some d else none
    | none => none
  let callApi (updRemindAt : Option String) : ToolResult × List ApiCall :=
    match apiResult with
    | .ok _ =>
      ({ success := true }, [.updateRem args.reminderId updDescr updRemindAt, .loadReminders])
    | .error e =>
      ({ success := false, error := some ("Failed to update reminder: " ++ e) },
        [.updateRem args.reminderId updDescr updRemindAt])
  match args.remindAt with
  | some r =>
    if r ≠ "" then
      match parseRemindAt jsParse r.data now with
      | none =>
        ({ success := false, error := some ("Could not parse reminder time: " ++ r) }, [])
      | some t => callApi (some (toISO t))
    else callApi none
  | none => callApi none

/-- C8 (amended):  For every input string `s` on which the temporal
resolver returns no timestamp, `executeCreateReminder` returns a failure
result whose message names `s`, makes no API call and triggers no state
refresh; and so does `executeUpdateReminder` provided `s` is non-empty.
(The original claim is false for the update executor at `s = ""`: JS
truthiness makes it skip the parse entirely and proceed to call the API —
see the counterexample.)  Both executors return the failure as a value
rather than throwing: the failing branch returns before the `try` block. -/
theorem c8_executors_reject_unparseable (toISO : Int → String)
    (jsParse : List Char → Option Int) (now : Int) (orgId : Option Nat)
    (chatId descr : String) (messageId : Option String) (reminderId : Nat)
    (updDescr : Option String) (apiC : Except String Nat) (apiU : Except String Unit)
    (s : String) (hps : parseRemindAt jsParse s.data now = none) :
    executeCreateReminder toISO jsParse now orgId
        { chatId := chatId, descr := descr, remindAt := s, messageId := messageId } apiC
      = ({ success := false, error := some ("Could not parse reminder time: " ++ s) }, [])
    ∧ (s ≠ "" →
        executeUpdateReminder toISO jsParse now
            { reminderId := reminderId, descr := updDescr, remindAt := some s } apiU
          = ({ success := false, error := some ("Could not parse reminder time: " ++ s) },
              [])) := by
  constructor
  · unfold executeCreateReminder
    rw [hps]
  · intro hsne
    unfold executeUpdateReminder
    dsimp only
    rw [if_pos hsne, hps]

/-- C8 (witness):  The unparseable example of the spec, `"not a time"`:
both executors reject it without touching a collaborator. -/
theorem c8_witness :
    parseRemindAt (fun _ => none) "not a time".data 0 = none
    ∧ executeCreateReminder (fun _ => "") (fun _ => none) 0 none
        { chatId := "c1", descr := "d", remindAt := "not a time" } (.ok 1)
      = ({ success := false, error := some "Could not parse reminder time: not a time" }, [])
    ∧ executeUpdateReminder (fun _ => "") (fun _ => none) 0
        { reminderId := 1, remindAt := some "not a time" } (.ok ())
      = ({ success := false, error := some "Could not parse reminder time: not a time" },
          []) := by
  have hp : parseRemindAt (fun _ => none) "not a time".data 0 = none := by decide
  have h := c8_executors_reject_unparseable (fun _ => "") (fun _ => none) 0 none
    "c1" "d" none 1 none (.ok 1) (.ok ()) "not a time" hp
  exact ⟨hp, h.1, h.2 (by decide)⟩

/-- C8 (counterexample):  The empty string is unparseable to the
resolver, yet `executeUpdateReminder` with `remindAt = ""` skips the parse
(JS truthiness), calls the reminder-CRUD API and reports success — so the
claimed "never call the API collaborator" part fails for the update executor. -/
theorem c8_counterexample :
    parseRemindAt (fun _ => none) "".data 0 = none
    ∧ (executeUpdateReminder (fun _ => "") (fun _ => none) 0
        { reminderId := 1, remindAt := some "" } (.ok ())).2
      = [.updateRem 1 none none, .loadReminders]
    ∧ (executeUpdateReminder (fun _ => "") (fun _ => none) 0
        { reminderId := 1, remindAt := some "" } (.ok ())).1.success = true := by
  exact ⟨by decide, by decide, by decide⟩

/-! ## Entity-form data model (src/unnamed/part_003, `forms.ts`) -/

inductive FieldType where
  | text
  | number
  | date
  | select
  | textarea
  | multiselect
deriving DecidableEq, Repr

structure FormFieldOption where
  label : String
  value : String
deriving DecidableEq, Repr

/-- Options of a field (`FormField.options`): a flat ordered list for regular fields, or a
`Record<string, FormFieldOption[]>` (association list) for dependent
fields. -/
inductive FieldOptions where
  | flat (opts : List FormFieldOption)
  | byParent (m : List (String × List FormFieldOption))
deriving DecidableEq, Repr

/-- Value of a field, `string | string[]`. -/
inductive FieldValue where
  | str (s : String)
  | list (vs : List String)
deriving DecidableEq, Repr

/-- The `FormField` record of forms.ts.  The unused `metadata?: any` escape hatch is
not modelled; no claim touches it. -/
structure FormField where
  type : FieldType
  label : Option String := none
  providerLabel : Option String := none
  value : FieldValue := .str ""
  name : String
  options : Option FieldOptions := none
  dependsOn : Option String := none
  isFutureOnly : Bool := false
deriving DecidableEq, Repr

/-- The `StandardPropertyType` tags used by forms.ts (services/types). -/
inductive StandardPropertyType where
  | TEXT
  | EMAIL
  | PHONE
  | URL
  | BOOLEAN
  | USER
  | TEXTAREA
  | NUMBER
  | CURRENCY
  | DATE
  | DATETIME
  | SELECT
  | STATUS
  | STAGE
  | ENUM
  | MULTISELECT
  | SET
deriving DecidableEq, Repr

/-- A provider property as consumed by `buildFormFieldsFromProperties`:
standardized name, display label, raw provider type string, optional
options, optional dependency. -/
structure Property where
  standardName : String
  label : String := ""
  type : String := ""
  options : Option FieldOptions := none
  dependsOn : Option String := none
deriving DecidableEq, Repr

structure PropertiesByEntityType where
  id : String
  properties : List Property := []
deriving DecidableEq, Repr

inductive ProviderEntityType where
  | Contact
  | Company
  | Deal
  | Task
  | Meeting
  | Note
  | Organization
  | Page
deriving DecidableEq, Repr

/-- The string-enum value backing each `ProviderEntityType` tag (used only
for the `e.id === entityType` comparison in `EntityForm`). -/
def entityTypeKey : ProviderEntityType → String
  | .Contact => "contact"
  | .Company => "company"
  | .Deal => "deal"
  | .Task => "task"
  | .Meeting => "meeting"
  | .Note => "note"
  | .Organization => "organization"
  | .Page => "page"

/-! ## `sortFieldsByPriority` (src/unnamed/part_003, lines 85-127) -/

def titleFieldNames : List String := ["title", "name", "subject"]

/-- ASCII `String.prototype.toLowerCase`, kept kernel-reducible. -/
def strToLower (s : String) : String := ⟨s.data.map Char.toLower⟩

def isTitleField (f : FormField) : Bool :=
  titleFieldNames.contains f.name || titleFieldNames.contains (strToLower f.name)

def typePriority : FieldType → Nat
  | .select => 2
  | .multiselect => 3
  | .text => 4
  | .number => 5
  | .date => 6
  | .textarea => 7

/-- JS truthiness of `field.dependsOn` (`undefined` and `""` are falsy). -/
def dependsOnTruthy (f : FormField) : Bool :=
  match f.dependsOn with
  | some s => s != ""
  | none => false

/-- One `dependent.forEach` step:
`sorted.findIndex((f) => f.name === depField.dependsOn)` followed by
`splice(parentIndex + 1, 0, depField)`, with `push` as the fallback —
i.e. insert `dep` right after the first field named `dep.dependsOn`,
else append it at the end. -/
def spliceDependent (dep : FormField) : List FormField → List FormField
  | [] => [dep]
  | f :: rest =>
    if some f.name = dep.dependsOn then f :: dep :: rest
    else f :: spliceDependent dep rest

def priorityLe (a b : FormField) : Prop :=
  typePriority a.type ≤ typePriority b.type

instance : DecidableRel priorityLe := fun _ _ => Nat.decLe _ _

instance : IsTotal FormField priorityLe :=
  ⟨fun a b => Nat.le_total (typePriority a.type) (typePriority b.type)⟩

instance : IsTrans FormField priorityLe :=
  ⟨fun _ _ _ => Nat.le_trans⟩

/-- Sorting pass `sortFieldsByPriority`.  The source sorts the independent fields with
JS `Array.prototype.sort`, which is stable; the output of a stable sort is
uniquely determined by the comparator and the input order, so the stable
`List.insertionSort` is extensionally the same pass. -/
def sortFieldsByPriority (fields : List FormField) : List FormField :=
  let titleFields := fields.filter (fun f => !dependsOnTruthy f && isTitleField f)
  let independent := fields.filter (fun f => !dependsOnTruthy f && !isTitleField f)
  let dependent := fields.filter (fun f => dependsOnTruthy f)
  let sorted := titleFields ++ independent.insertionSort priorityLe
  dependent.foldl (fun acc d => spliceDependent d acc) sorted

/-! ## `buildFormFieldsFromProperties` (src/unnamed/part_003, lines 129-182)

`getPropertyType` (fieldConfig.ts) and `formatSnakeCaseLabel` (util) are
collaborators outside the corpus and are taken as parameters `gpt` /
`fmtLabel`; `nowStr` is `toLocalISOString(new Date())`. -/

def mapPropertyTypeToFormType : StandardPropertyType → FieldType
  | .TEXT | .EMAIL | .PHONE | .URL | .BOOLEAN | .USER => .text
  | .TEXTAREA => .textarea
  | .NUMBER | .CURRENCY => .number
  | .DATE | .DATETIME => .date
  | .SELECT | .STATUS | .STAGE | .ENUM => .select
  | .MULTISELECT | .SET => .multiselect

def getDefaultValue (nowStr : String) : StandardPropertyType → FieldValue
  | .DATE | .DATETIME => .str nowStr
  | .NUMBER | .CURRENCY => .str "0"
  | .MULTISELECT => .list []
  | _ => .str ""

/-- The body of the `.map` lambda in `buildFormFieldsFromProperties`, for a
`name` whose property lookup succeeded.  `property.options` truthiness:
an empty array or empty record is truthy in JS but fails both length
checks, leaving the table-derived type in place. -/
def buildFieldFromProperty (gpt : Property → String → StandardPropertyType)
    (fmtLabel : String → String) (nowStr : String) (provider : String)
    (name : String) (p : Property) : FormField :=
  let propertyType := gpt p provider
  let formType0 := mapPropertyTypeToFormType propertyType
  let formType : FieldType :=
    if p.type = "multiselect" ∨ propertyType = .MULTISELECT then .multiselect
    else
      match p.options with
      | some (.flat l) => if 0 < l.length then .select else formType0
      | some (.byParent m) => if 0 < m.length then .select else formType0
      | none => formType0
  let default0 := getDefaultValue nowStr propertyType
  let defaultValue : FieldValue :=
    if formType = .select then
      match p.options with
      | some (.flat (o :: _)) => .str o.value
      | _ => default0
    else if formType = .multiselect then .list []
    else default0
  { name := name
    providerLabel := some (fmtLabel p.label)
    type := formType
    options := p.options
    dependsOn := p.dependsOn
    value := defaultValue }

def buildFormFieldsFromProperties (gpt : Property → String → StandardPropertyType)
    (fmtLabel : String → String) (nowStr : String)
    (fieldNames : List String) (properties : List Property) (provider : String) :
    List FormField :=
  sortFieldsByPriority <| fieldNames.filterMap fun name =>
    (properties.find? (fun p => p.standardName == name)).map
      (buildFieldFromProperty gpt fmtLabel nowStr provider name)

/-! ## The static `forms` table (src/unnamed/part_003, lines 185-337) -/

def forms (nowStr : String) : ProviderEntityType → Option (List FormField)
  | .Contact => some
      [{ type := .text, label := some "RelationshipModal.Name", value := .str "",
         name := "name" },
       { type := .text, label := some "RelationshipModal.Phone", value := .str "",
         name := "phone" },
       { type := .text, label := some "RelationshipModal.Email", value := .str "",
         name := "email" }]
  | .Company => some
      [{ type := .text, label := some "RelationshipModal.Name", value := .str "",
         name := "name" },
       { type := .text, label := some "RelationshipModal.Website", value := .str "",
         name := "website" }]
  | .Deal => some
      [{ type := .text, label := some "RelationshipModal.Title", value := .str "",
         name := "title" },
       { type := .number, label := some "RelationshipModal.Amount", value := .str "0",
         name := "amount" },
       { type := .date, label := some "RelationshipModal.CloseDate", value := .str nowStr,
         name := "closeDate" }]
  | .Meeting => some
      [{ type := .text, label := some "RelationshipModal.Title", value := .str "",
         name := "title" },
       { type := .date, label := some "RelationshipModal.StartDate", value := .str nowStr,
         name := "startDate", isFutureOnly := true },
       { type := .select, label := some "RelationshipModal.Duration", value := .str "15",
         options := some (.flat
           [{ label := "15", value := "15" }, { label := "30", value := "30" },
            { label := "45", value := "45" }, { label := "60", value := "60" },
            { label := "120", value := "120" }]),
         name := "duration" }]
  | .Note => some
      [{ type := .textarea, label := some "RelationshipModal.Text", value := .str "",
         name := "body" }]
  | .Task => some
      [{ type := .text, label := some "RelationshipModal.Title", value := .str "",
         name := "subject" },
       { type := .date, label := some "RelationshipModal.Date", value := .str nowStr,
         name := "date", isFutureOnly := true },
       { type := .textarea, label := some "RelationshipModal.Text", value := .str "",
         name := "body" },
       { type := .select, label := some "RelationshipModal.TaskType", value := .str "TODO",
         options := some (.flat
           [{ label := "To-do", value := "TODO" }, { label := "Email", value := "EMAIL" },
            { label := "Call", value := "CALL" }]),
         name := "taskType" },
       { type := .select, label := some "RelationshipModal.Priority", value := .str "NONE",
         options := some (.flat
           [{ label := "Low", value := "LOW" }, { label := "Medium", value := "MEDIUM" },
            { label := "High", value := "HIGH" }, { label := "None", value := "NONE" }]),
         name := "priority" }]
  | .Organization => some []
  | .Page => some
      [{ type := .text, label := some "RelationshipModal.Title", value := .str "",
         name := "title" }]

/-! ## `MINIMAL_FIELDS` (ProviderEntityForm/minimalFields.ts) -/

def MINIMAL_FIELDS : ProviderEntityType → List String
  | .Contact => ["name", "email", "phone"]
  | .Company => ["name", "website", "industry"]
  | .Deal => ["title", "pipeline", "stage"]
  | .Task => ["subject", "date", "taskType"]
  | .Meeting => ["title", "startDate", "duration"]
  | .Page => []
  | .Note => []
  | .Organization => []

def getMinimalFieldsForEntity (entityType : ProviderEntityType) : List String :=
  MINIMAL_FIELDS entityType

def hasMinimalFields (entityType : ProviderEntityType) : Bool :=
  0 < (MINIMAL_FIELDS entityType).length

/-! ## The `formFields` construction of `EntityForm` (src/unnamed/part_000,
lines 445-531)

The collaborators that live outside the corpus are bundled in
`FormCollab`: `hasDynamicFields` / `getFieldNamesForProvider` /
`getPropertyType` come from fieldConfig.ts, `getPropertyLabel` /
`getPropertyOptions` from the `useProviderProperty` hook,
`convertNotion` from the util/notion `convertNotionPropertiesToFormFields`,
`decodeEntityDb` is `decodeEntityId(...)[1]`, `fmtLabel` is
`formatSnakeCaseLabel` and `nowStr` is `toLocalISOString(new Date())`. -/

inductive FieldFilter where
  | all
  | minimal
deriving DecidableEq, Repr

/-- The slice of a `ProviderEntity`/`ProviderPage` that `formFields`
reads: its id and (for Notion pages) its property values. -/
structure PEntity where
  id : String
  pageProps : List (String × String) := []
deriving DecidableEq, Repr

structure FormCollab where
  hasDynamicFields : String → ProviderEntityType → Bool
  getFieldNamesForProvider : String → ProviderEntityType → List String
  getPropertyType : Property → String → StandardPropertyType
  fmtLabel : String → String
  getPropertyLabel : String → Option String
  getPropertyOptions : String → Option FieldOptions
  convertNotion : List Property → List (String × String) → List FormField
  decodeEntityDb : String → Option String
  nowStr : String

/-- The static-template enrichment step of `EntityForm`: attach the
provider label, and for select/multiselect fields replace the template
options with the provider-sourced ones when they form a non-empty array. -/
def enrichField (c : FormCollab) (f : FormField) : FormField :=
  let updatedField := { f with providerLabel := c.getPropertyLabel f.name }
  if f.type = .select ∨ f.type = .multiselect then
    match c.getPropertyOptions f.name with
    | some (.flat opts) =>
      if 0 < opts.length then { updatedField with options := some (.flat opts) }
      else updatedField
    | _ => updatedField
  else updatedField

/-- The static-template filter of `EntityForm`: hide select/multiselect
fields whose `options` is not a non-empty array. -/
def keepField (f : FormField) : Bool :=
  if f.type = .select ∨ f.type = .multiselect then
    match f.options with
    | some (.flat opts) => 0 < opts.length
    | _ => false
  else true

/-- The `formFields` `useMemo` of `EntityForm`.  Note that the component
accepts `fieldFilter` but its body never reads it. -/
def entityFormFields (c : FormCollab) (provider : String)
    (entityType : ProviderEntityType) (entity : Option PEntity)
    (properties : List PropertiesByEntityType) (databaseId : Option String)
    (fieldFilter : FieldFilter) : List FormField :=
  let props :=
    ((properties.find? (fun e => e.id == entityTypeKey entityType)).map
      (·.properties)).getD []
  let pageResult : Option (List FormField) :=
    if entityType = .Page then
      let dbId : Option String :=
        match entity with
        | some e => c.decodeEntityDb e.id
        | none => databaseId
      let entityProperties : Option (List Property) :=
        match dbId with
        | some db => (properties.find? (fun e => e.id == db)).map (·.properties)
        | none => none
      match entityProperties with
      | some ps =>
        if 0 < ps.length then
          some (c.convertNotion ps (match entity with
            | some e => e.pageProps
            | none => []))
        else none
      | none => none
    else none
  match pageResult with
  | some r => r
  | none =>
    if c.hasDynamicFields provider entityType then
      buildFormFieldsFromProperties c.getPropertyType c.fmtLabel c.nowStr
        (c.getFieldNamesForProvider provider entityType) props provider
    else
      match forms c.nowStr entityType with
      | none => []
      | some baseFields => (baseFields.map (enrichField c)).filter keepField

/-! ## Structural lemmas about `sortFieldsByPriority` -/

theorem spliceDependent_perm (dep : FormField) (l : List FormField) :
    (spliceDependent dep l).Perm (dep :: l) := by
  induction l with
  | nil => exact List.Perm.refl _
  | cons f rest ih =>
    unfold spliceDependent
    by_cases h : some f.name = dep.dependsOn
    · rw [if_pos h]
      exact List.Perm.swap _ _ _
    · rw [if_neg h]
      exact (ih.cons f).trans (List.Perm.swap _ _ _)

theorem spliceFold_perm (deps l : List FormField) :
    (deps.foldl (fun acc d => spliceDependent d acc) l).Perm (deps ++ l) := by
  induction deps generalizing l with
  | nil => simp
  | cons d rest ih =>
    simp only [List.foldl_cons, List.cons_append]
    refine (ih (spliceDependent d l)).trans ?_
    refine (List.Perm.append_left rest (spliceDependent_perm d l)).trans ?_
    exact List.perm_middle

theorem sortFieldsByPriority_perm (fields : List FormField) :
    (sortFieldsByPriority fields).Perm fields := by
  unfold sortFieldsByPriority
  have h1 : ((fields.filter (fun f => dependsOnTruthy f)).foldl
      (fun acc d => spliceDependent d acc)
      (fields.filter (fun f => !dependsOnTruthy f && isTitleField f)
        ++ (fields.filter (fun f => !dependsOnTruthy f && !isTitleField f)).insertionSort
          priorityLe)).Perm
      (fields.filter (fun f => dependsOnTruthy f)
        ++ (fields.filter (fun f => !dependsOnTruthy f && isTitleField f)
          ++ (fields.filter (fun f => !dependsOnTruthy f && !isTitleField f)).insertionSort
            priorityLe)) := spliceFold_perm _ _
  refine h1.trans ?_
  have h2 : ((fields.filter (fun f => !dependsOnTruthy f && !isTitleField f)).insertionSort
      priorityLe).Perm (fields.filter (fun f => !dependsOnTruthy f && !isTitleField f)) :=
    List.perm_insertionSort _ _
  have h3 : (fields.filter (fun f => dependsOnTruthy f)
      ++ (fields.filter (fun f => !dependsOnTruthy f && isTitleField f)
        ++ (fields.filter (fun f => !dependsOnTruthy f && !isTitleField f)).insertionSort
          priorityLe)).Perm
      (fields.filter (fun f => dependsOnTruthy f)
        ++ (fields.filter (fun f => !dependsOnTruthy f && isTitleField f)
          ++ fields.filter (fun f => !dependsOnTruthy f && !isTitleField f))) :=
    List.Perm.append_left _ (List.Perm.append_left _ h2)
  refine h3.trans ?_
  have h4 : (fields.filter (fun f => !dependsOnTruthy f && isTitleField f)
      ++ fields.filter (fun f => !dependsOnTruthy f && !isTitleField f)).Perm
      (fields.filter (fun f => !dependsOnTruthy f)) := by
    have := List.filter_append_perm (fun f => isTitleField f)
      (fields.filter (fun f => !dependsOnTruthy f))
    rw [List.filter_filter, List.filter_filter] at this
    refine List.Perm.trans ?_ this
    apply List.Perm.append
    · rw [List.filter_congr]
      intro a _
      rw [Bool.and_comm]
    · rw [List.filter_congr]
      intro a _
      rw [Bool.and_comm]
  have h5 : (fields.filter (fun f => dependsOnTruthy f)
      ++ fields.filter (fun f => !dependsOnTruthy f)).Perm fields := by
    have := List.filter_append_perm (fun f => dependsOnTruthy f) fields
    exact this
  exact (List.Perm.append_left _ h4).trans h5

theorem mem_sortFieldsByPriority {f : FormField} {fields : List FormField} :
    f ∈ sortFieldsByPriority fields ↔ f ∈ fields :=
  (sortFieldsByPriority_perm fields).mem_iff

/-! ## C5: the type-override rule of the dynamic builder -/

/-- A non-empty option set: a non-empty flat list, or a non-empty
per-parent-value mapping. -/
def optionsNonEmpty : Option FieldOptions → Prop
  | some (.flat l) => l ≠ []
  | some (.byParent m) => m ≠ []
  | none => False

/-- C5 (confirmed):  For every property handed to the dynamic builder:
if the property explicitly declares the multiselect type (raw provider
string `"multiselect"` or standardized `MULTISELECT`), the type of the
resulting field is `multiselect`; otherwise, if the property carries a
non-empty option set (non-empty flat list or non-empty per-parent
mapping), the type of the resulting field is `select`, regardless of what the
semantic-type table maps its type to — in particular such a property is
never rendered as a free-text field.  Quantified over every
`getPropertyType` implementation `gpt` and label formatter. -/
theorem c5_type_override (gpt : Property → String → StandardPropertyType)
    (fmtLabel : String → String) (nowStr provider : String)
    (fieldNames : List String) (properties : List Property) :
    ∀ f ∈ buildFormFieldsFromProperties gpt fmtLabel nowStr fieldNames properties provider,
    ∀ p, properties.find? (fun q => q.standardName == f.name) = some p →
      ((p.type = "multiselect" ∨ gpt p provider = .MULTISELECT) → f.type = .multiselect)
      ∧ (¬(p.type = "multiselect" ∨ gpt p provider = .MULTISELECT) →
          optionsNonEmpty p.options → f.type = .select) := by
  intro f hf p hfind
  rw [buildFormFieldsFromProperties, mem_sortFieldsByPriority] at hf
  obtain ⟨name, hname, hbuilt⟩ := List.mem_filterMap.mp hf
  obtain ⟨p', hfind', rfl⟩ := Option.map_eq_some'.mp hbuilt
  have hnm : (buildFieldFromProperty gpt fmtLabel nowStr provider name p').name = name := rfl
  rw [hnm] at hfind
  rw [hfind'] at hfind
  obtain rfl : p' = p := by injection hfind
  constructor
  · intro hcond
    simp only [buildFieldFromProperty, if_pos hcond]
  · intro hcond hopts
    simp only [buildFieldFromProperty, if_neg hcond]
    match ho : p'.options with
    | some (.flat l) =>
      rw [ho] at hopts
      have : 0 < l.length := List.length_pos.mpr hopts
      simp [this]
    | some (.byParent m) =>
      rw [ho] at hopts
      have : 0 < m.length := List.length_pos.mpr hopts
      simp [this]
    | none => rw [ho] at hopts; exact absurd hopts (by simp [optionsNonEmpty])

/-- A Pipedrive-style `stage` property: raw type `"enum"`, carrying a
per-parent-value option mapping. -/
def stageProperty : Property :=
  { standardName := "stage", label := "Stage", type := "enum",
    options := some (.byParent [("1", [{ label := "Todo", value := "1" }])]) }

/-- C5 (witness):  With `getPropertyType` standardizing the property to
`STAGE` (whose table entry is already `select`), the built `stage` field
carrying a non-empty per-parent mapping comes out as a `select`. -/
theorem c5_witness :
    (buildFormFieldsFromProperties (fun _ _ => .STAGE) (fun s => s) "now"
        ["stage"] [stageProperty] "pipedrive").map FormField.type
      = [.select] := by
  have hlist : buildFormFieldsFromProperties (fun _ _ => .STAGE) (fun s => s) "now"
      ["stage"] [stageProperty] "pipedrive"
      = [buildFieldFromProperty (fun _ _ => .STAGE) (fun s => s) "now" "pipedrive"
          "stage" stageProperty] := by rfl
  have hmem : buildFieldFromProperty (fun _ _ => .STAGE) (fun s => s) "now" "pipedrive"
      "stage" stageProperty
      ∈ buildFormFieldsFromProperties (fun _ _ => .STAGE) (fun s => s) "now"
        ["stage"] [stageProperty] "pipedrive" := by
    rw [hlist]; exact List.mem_singleton_self _
  have h := c5_type_override (fun _ _ => .STAGE) (fun s => s) "now" "pipedrive"
    ["stage"] [stageProperty] _ hmem stageProperty (by rfl)
  have hsel := h.2 (by decide) (by simp [stageProperty, optionsNonEmpty])
  rw [hlist, List.map_singleton, hsel]

/-! ## C1: minimal-field filtering -/

/-- A concrete collaborator bundle: a provider with no dynamic-field
support and no property metadata. -/
def trivialCollab : FormCollab :=
  { hasDynamicFields := fun _ _ => false
    getFieldNamesForProvider := fun _ _ => []
    getPropertyType := fun _ _ => .TEXT
    fmtLabel := fun s => s
    getPropertyLabel := fun _ => none
    getPropertyOptions := fun _ => none
    convertNotion := fun _ _ => []
    decodeEntityDb := fun _ => none
    nowStr := "2024-01-01T00:00" }

/-- C1 (code bug):  `EntityForm` accepts the `fieldFilter` prop but its
field construction never reads it, and `MINIMAL_FIELDS` /
`getMinimalFieldsForEntity` are imported nowhere: for every input the
minimal-mode output equals the full-mode output.  Evaluated at the claim's
Deal example (static path, no properties), minimal mode shows
`title, amount, closeDate` — not the intersection `[title]` with the
allow-list `{title, pipeline, stage}` that the claim (and minimalFields.ts'
own documentation) prescribes. -/
theorem c1_fieldFilter_ignored :
    (∀ (c : FormCollab) (provider : String) (entityType : ProviderEntityType)
        (entity : Option PEntity) (properties : List PropertiesByEntityType)
        (databaseId : Option String),
      entityFormFields c provider entityType entity properties databaseId .minimal
        = entityFormFields c provider entityType entity properties databaseId .all)
    ∧ (entityFormFields trivialCollab "hubspot" .Deal none [] none .minimal).map
          FormField.name
        = ["title", "amount", "closeDate"]
    ∧ ((entityFormFields trivialCollab "hubspot" .Deal none [] none .all).map
          FormField.name).filter (fun n => (MINIMAL_FIELDS .Deal).contains n)
        = ["title"]
    ∧ (["title", "amount", "closeDate"] : List String) ≠ ["title"] := by
  refine ⟨fun c p et e pr d => rfl, by rfl, by rfl, by decide⟩

/-! ## C3: empty-option select/multiselect fields -/

/-- C3 (amended):  Under the static-template path (entity types other
than Page, providers without dynamic fields), every select or multiselect
field in the final output carries a non-empty flat option list — fields
that end up without one are dropped.  (The dynamic
`buildFormFieldsFromProperties` path performs no such filtering; see the
counterexample.) -/
theorem c3_static_no_empty_select (c : FormCollab) (provider : String)
    (entityType : ProviderEntityType) (entity : Option PEntity)
    (properties : List PropertiesByEntityType) (databaseId : Option String)
    (ff : FieldFilter)
    (hdyn : c.hasDynamicFields provider entityType = false)
    (hpage : entityType ≠ .Page) :
    ∀ f ∈ entityFormFields c provider entityType entity properties databaseId ff,
      (f.type = .select ∨ f.type = .multiselect) →
        ∃ opts, f.options = some (.flat opts) ∧ opts ≠ [] := by
  intro f hf hty
  unfold entityFormFields at hf
  dsimp only at hf
  rw [if_neg hpage, hdyn] at hf
  simp only [Bool.false_eq_true, if_false] at hf
  cases hform : forms c.nowStr entityType with
  | none => rw [hform] at hf; simp at hf
  | some baseFields =>
    rw [hform] at hf
    have hkeep : keepField f = true := (List.mem_filter.mp hf).2
    unfold keepField at hkeep
    rw [if_pos hty] at hkeep
    match ho : f.options with
    | some (.flat opts) =>
      rw [ho] at hkeep
      refine ⟨opts, rfl, List.length_pos.mp ?_⟩
      simpa using hkeep
    | some (.byParent m) => rw [ho] at hkeep; exact absurd hkeep (by simp)
    | none => rw [ho] at hkeep; exact absurd hkeep (by simp)

/-- C3 (witness):  On the static Task template (no provider options),
the two template selects keep their non-empty hand-authored option lists
and survive; the theorem applies with its hypotheses discharged. -/
theorem c3_witness :
    trivialCollab.hasDynamicFields "zoho" .Task = false
    ∧ (.Task : ProviderEntityType) ≠ .Page
    ∧ ∀ f ∈ entityFormFields trivialCollab "zoho" .Task none [] none .all,
        (f.type = .select ∨ f.type = .multiselect) →
          ∃ opts, f.options = some (.flat opts) ∧ opts ≠ [] :=
  ⟨rfl, by decide,
    c3_static_no_empty_select trivialCollab "zoho" .Task none [] none .all rfl (by decide)⟩

/-- C3 (counterexample):  The dynamic path builds a `select` field with
no options at all (a SELECT-typed property without an option set) and does
not drop it — it is not a dependent field either, so the claimed invariant
fails on `buildFormFieldsFromProperties`. -/
theorem c3_counterexample :
    (buildFormFieldsFromProperties (fun _ _ => .SELECT) (fun s => s) "now"
        ["stage"] [{ standardName := "stage", label := "Stage", type := "select" }]
        "provider").map (fun f => (f.name, f.type, f.options, f.dependsOn))
      = [("stage", FieldType.select, none, none)] := by rfl

/-! ## C4: lemmas about the dependent-field splice -/

theorem spliceDependent_filter (dep : FormField) (l : List FormField)
    (p : FormField → Bool) (hdep : p dep = false) :
    (spliceDependent dep l).filter p = l.filter p := by
  induction l with
  | nil => simp [spliceDependent, hdep]
  | cons f rest ih =>
    unfold spliceDependent
    by_cases h : some f.name = dep.dependsOn
    · rw [if_pos h]
      simp [List.filter_cons, hdep]
    · rw [if_neg h]
      simp only [List.filter_cons, ih]

theorem spliceFold_filter (deps l : List FormField) (p : FormField → Bool)
    (h : ∀ d ∈ deps, p d = false) :
    (deps.foldl (fun acc d => spliceDependent d acc) l).filter p = l.filter p := by
  induction deps generalizing l with
  | nil => rfl
  | cons d rest ih =>
    simp only [List.foldl_cons]
    rw [ih _ (fun e he => h e (by simp [he]))]
    exact spliceDependent_filter d l p (h d (by simp))

theorem spliceDependent_mem {x : FormField} {l : List FormField} (dep : FormField)
    (hx : x ∈ l) : x ∈ spliceDependent dep l :=
  (spliceDependent_perm dep l).mem_iff.mpr (List.mem_cons_of_mem _ hx)

theorem mem_of_spliceDependent {x : FormField} {l : List FormField} {dep : FormField}
    (hx : x ∈ spliceDependent dep l) : x = dep ∨ x ∈ l := by
  have := (spliceDependent_perm dep l).mem_iff.mp hx
  simpa using this

/-- Splicing `dep` when its parent is the unique field named
`dep.dependsOn` in `l` puts `dep` immediately after that parent. -/
theorem spliceDependent_adj_self (dep q : FormField) (l : List FormField)
    (hq : q ∈ l) (huniql : ∀ x ∈ l, x.name = q.name → x = q)
    (hdep : dep.dependsOn = some q.name) :
    ∃ l₁ l₂, spliceDependent dep l = l₁ ++ q :: dep :: l₂ := by
  induction l with
  | nil => exact absurd hq (by simp)
  | cons f rest ih =>
    unfold spliceDependent
    by_cases h : some f.name = dep.dependsOn
    · rw [if_pos h]
      have hfq : f = q := by
        apply huniql f (by simp)
        rw [hdep] at h
        injection h
      subst hfq
      exact ⟨[], rest, rfl⟩
    · rw [if_neg h]
      have hqrest : q ∈ rest := by
        rcases List.mem_cons.mp hq with rfl | hr
        · exact absurd hdep.symm h
        · exact hr
      obtain ⟨l₁, l₂, hsplit⟩ :=
        ih hqrest (fun x hx hxn => huniql x (by simp [hx]) hxn)
      exact ⟨f :: l₁, l₂, by rw [hsplit]; rfl⟩

/-- Splicing a field whose declared parent is not named `q.name` cannot
break an existing `q, d` adjacency. -/
theorem spliceDependent_adj_keep (dep q d : FormField) (l₁ l₂ : List FormField)
    (hne : dep.dependsOn ≠ some q.name) :
    ∃ m₁ m₂, spliceDependent dep (l₁ ++ q :: d :: l₂) = m₁ ++ q :: d :: m₂ := by
  induction l₁ with
  | nil =>
    simp only [List.nil_append]
    unfold spliceDependent
    rw [if_neg (fun h => hne h.symm)]
    unfold spliceDependent
    by_cases h : some d.name = dep.dependsOn
    · rw [if_pos h]
      exact ⟨[], dep :: l₂, rfl⟩
    · rw [if_neg h]
      exact ⟨[], spliceDependent dep l₂, rfl⟩
  | cons x l₁' ih =>
    simp only [List.cons_append]
    unfold spliceDependent
    by_cases h : some x.name = dep.dependsOn
    · rw [if_pos h]
      exact ⟨x :: dep :: l₁', l₂, rfl⟩
    · rw [if_neg h]
      obtain ⟨m₁, m₂, hm⟩ := ih
      exact ⟨x :: m₁, m₂, by rw [hm]; rfl⟩

/-- Adjacency survives the whole splice fold as long as no later dependent
targets the name of the parent. -/
theorem spliceFold_adj_keep (deps : List FormField) (q d : FormField) :
    ∀ cur : List FormField,
    (∃ l₁ l₂, cur = l₁ ++ q :: d :: l₂) →
    (∀ e ∈ deps, e.dependsOn ≠ some q.name) →
    ∃ l₁ l₂, deps.foldl (fun acc e => spliceDependent e acc) cur = l₁ ++ q :: d :: l₂ := by
  induction deps with
  | nil => intro cur hadj _; exact hadj
  | cons e rest ih =>
    intro cur hadj hne
    obtain ⟨l₁, l₂, rfl⟩ := hadj
    simp only [List.foldl_cons]
    exact ih _ (spliceDependent_adj_keep e q d l₁ l₂ (hne e (by simp)))
      (fun x hx => hne x (by simp [hx]))

/-- When no field of `l` is named after the declared parent of `dep`, the splice is a
plain append (`sorted.push(depField)`). -/
theorem spliceDependent_no_match (dep : FormField) (l : List FormField)
    (h : ∀ x ∈ l, some x.name ≠ dep.dependsOn) :
    spliceDependent dep l = l ++ [dep] := by
  induction l with
  | nil => rfl
  | cons f rest ih =>
    unfold spliceDependent
    rw [if_neg (h f (by simp))]
    rw [ih (fun x hx => h x (by simp [hx]))]
    rfl

/-- When the parent of `dep` occurs in `main`, splicing into `main ++ orph`
stays inside `main`. -/
theorem spliceDependent_append_of_match (dep : FormField) (main orph : List FormField)
    (h : ∃ q ∈ main, some q.name = dep.dependsOn) :
    spliceDependent dep (main ++ orph) = spliceDependent dep main ++ orph := by
  induction main with
  | nil => obtain ⟨q, hq, _⟩ := h; exact absurd hq (by simp)
  | cons f rest ih =>
    simp only [List.cons_append]
    unfold spliceDependent
    by_cases hf : some f.name = dep.dependsOn
    · rw [if_pos hf, if_pos hf]
      rfl
    · rw [if_neg hf, if_neg hf]
      obtain ⟨q, hq, hqn⟩ := h
      rcases List.mem_cons.mp hq with rfl | hr
      · exact absurd hqn hf
      · rw [ih ⟨q, hr, hqn⟩]
        rfl

/-- The parent of `d` is absent from the input: `d` is a dependent field
whose `dependsOn` names no field of `fields`. -/
def orphanB (fields : List FormField) (d : FormField) : Bool :=
  dependsOnTruthy d && !(fields.any (fun q => some q.name == d.dependsOn))

/-- Processing the dependents in order places each one immediately after
its (unique, dependency-free) parent, and later splices do not disturb the
pair. -/
theorem spliceFold_adj (fields : List FormField)
    (huniq : ∀ x ∈ fields, ∀ y ∈ fields, x.name = y.name → x = y) :
    ∀ (deps cur : List FormField) (d q : FormField),
    deps.Nodup →
    d ∈ deps →
    (∀ e ∈ deps, e ∈ fields) →
    (∀ x ∈ cur, x ∈ fields) →
    (∀ e ∈ deps, e ≠ d → e.dependsOn ≠ d.dependsOn) →
    q ∈ cur →
    d.dependsOn = some q.name →
    ∃ l₁ l₂, deps.foldl (fun acc e => spliceDependent e acc) cur
      = l₁ ++ q :: d :: l₂ := by
  intro deps
  induction deps with
  | nil =>
    intro cur d q _ hd
    exact absurd hd (by simp)
  | cons e rest ih =>
    intro cur d q hnd hd hdepsf hcurf hdist hq hdq
    simp only [List.foldl_cons]
    by_cases hed : e = d
    · subst hed
      have hqf : q ∈ fields := hcurf q hq
      have hadj := spliceDependent_adj_self e q cur hq
        (fun x hx hxn => huniq x (hcurf x hx) q hqf hxn) hdq
      apply spliceFold_adj_keep rest q e _ hadj
      intro x hx hxq
      have hxe : x ≠ e := by
        intro h
        rw [h] at hx
        exact (List.nodup_cons.mp hnd).1 hx
      exact hdist x (by simp [hx]) hxe (by rw [hxq, hdq])
    · have hd' : d ∈ rest := by
        rcases List.mem_cons.mp hd with h | h
        · exact absurd h.symm hed
        · exact h
      refine ih (spliceDependent e cur) d q (List.nodup_cons.mp hnd).2 hd'
        (fun x hx => hdepsf x (by simp [hx])) ?_
        (fun x hx hxd => hdist x (by simp [hx]) hxd)
        (spliceDependent_mem e hq) hdq
      intro x hx
      rcases mem_of_spliceDependent hx with rfl | h
      · exact hdepsf x (by simp)
      · exact hcurf x h

/-- Processing the dependents in order keeps the orphans (dependents whose
parent is absent) as the final suffix, in their processing order; the part
before the suffix never contains an orphan. -/
theorem spliceFold_orphan (fields : List FormField)
    (hindep : ∀ d ∈ fields, dependsOnTruthy d = true →
      ∀ q ∈ fields, some q.name = d.dependsOn → dependsOnTruthy q = false) :
    ∀ (deps main orph : List FormField),
    (∀ e ∈ deps, e ∈ fields ∧ dependsOnTruthy e = true) →
    (∀ x ∈ main, x ∈ fields) →
    (∀ x ∈ orph, x ∈ fields) →
    (∀ f ∈ main, orphanB fields f = false) →
    (∀ q ∈ fields, dependsOnTruthy q = false → q ∈ main) →
    ∃ main', deps.foldl (fun acc e => spliceDependent e acc) (main ++ orph)
        = main' ++ (orph ++ deps.filter (orphanB fields))
      ∧ (∀ f ∈ main', orphanB fields f = false) := by
  intro deps
  induction deps with
  | nil =>
    intro main orph _ _ _ hmo _
    exact ⟨main, by simp, hmo⟩
  | cons e rest ih =>
    intro main orph hdeps hmf hof hmo hnd
    simp only [List.foldl_cons]
    have he := hdeps e (by simp)
    by_cases horph : orphanB fields e = true
    · have hnoany : fields.any (fun q => some q.name == e.dependsOn) = false := by
        unfold orphanB at horph
        rcases Bool.and_eq_true_iff.mp horph with ⟨_, h2⟩
        simpa using h2
      have hnomatch : ∀ x ∈ main ++ orph, some x.name ≠ e.dependsOn := by
        intro x hx hxe
        have hxf : x ∈ fields := (List.mem_append.mp hx).elim (hmf x) (hof x)
        have : fields.any (fun q => some q.name == e.dependsOn) = true :=
          List.any_eq_true.mpr ⟨x, hxf, by rw [hxe]; exact beq_self_eq_true _⟩
        rw [this] at hnoany
        exact Bool.true_eq_false.mp hnoany
      rw [spliceDependent_no_match e _ hnomatch, List.append_assoc]
      obtain ⟨main', hs, hm'⟩ := ih main (orph ++ [e])
        (fun x hx => hdeps x (by simp [hx])) hmf
        (fun x hx => by
          rcases List.mem_append.mp hx with h | h
          · exact hof x h
          · rw [List.mem_singleton.mp h]; exact he.1)
        hmo hnd
      refine ⟨main', ?_, hm'⟩
      rw [hs, List.filter_cons_of_pos horph]
      simp [List.append_assoc]
    · have hany : fields.any (fun q => some q.name == e.dependsOn) = true := by
        unfold orphanB at horph
        rw [he.2] at horph
        simpa using horph
      obtain ⟨q, hqf, hqe⟩ := List.any_eq_true.mp hany
      have hqe' : some q.name = e.dependsOn := eq_of_beq hqe
      have hqnd : dependsOnTruthy q = false := hindep e he.1 he.2 q hqf hqe'
      have hqmain : q ∈ main := hnd q hqf hqnd
      rw [spliceDependent_append_of_match e main orph ⟨q, hqmain, hqe'⟩]
      obtain ⟨main', hs, hm'⟩ := ih (spliceDependent e main) orph
        (fun x hx => hdeps x (by simp [hx]))
        (fun x hx => by
          rcases mem_of_spliceDependent hx with rfl | h
          · exact he.1
          · exact hmf x h)
        hof
        (fun f hf => by
          rcases mem_of_spliceDependent hf with rfl | h
          · simpa using horph
          · exact hmo f h)
        (fun p hp hpnd => spliceDependent_mem e (hnd p hp hpnd))
      refine ⟨main', ?_, hm'⟩
      rw [hs, List.filter_cons_of_neg (by simpa using horph)]

/-- C4 (amended):  For every input list of form fields whose names are
pairwise distinct, in which no two dependent fields declare the same
parent and every declared parent that is present is itself
dependency-free, `sortFieldsByPriority`:
(0) returns a permutation of the input;
(1)+(2) on the dependency-free subsequence of the output, the title-like
fields (`title`/`name`/`subject`, case-insensitively, without
dependencies) come first in their original relative order, followed by the
remaining dependency-free fields in ascending type-priority order
(select < multiselect < text < number < date < textarea);
(3) every dependent field whose parent is present sits immediately after
that parent, and the dependents whose parent is absent form the final
suffix of the output (appended at the very end), which contains no other
field.
(Without the distinctness provisos, part (3) is false: two dependents
sharing one parent cannot both be immediately after it — the splice places
the later one closer; see the counterexample.) -/
theorem c4_sortFieldsByPriority_spec (fields : List FormField)
    (hnames : (fields.map FormField.name).Nodup)
    (hindep : ∀ d ∈ fields, dependsOnTruthy d = true →
      ∀ q ∈ fields, some q.name = d.dependsOn → dependsOnTruthy q = false)
    (hshared : ∀ d₁ ∈ fields, ∀ d₂ ∈ fields, dependsOnTruthy d₁ = true →
      dependsOnTruthy d₂ = true → d₁.dependsOn = d₂.dependsOn → d₁ = d₂) :
    (sortFieldsByPriority fields).Perm fields
    ∧ (∃ I, (sortFieldsByPriority fields).filter (fun f => !dependsOnTruthy f)
          = fields.filter (fun f => !dependsOnTruthy f && isTitleField f) ++ I
        ∧ I.Perm (fields.filter (fun f => !dependsOnTruthy f && !isTitleField f))
        ∧ I.Pairwise priorityLe)
    ∧ (∀ d ∈ fields, dependsOnTruthy d = true →
        ∀ q ∈ fields, some q.name = d.dependsOn →
          ∃ l₁ l₂, sortFieldsByPriority fields = l₁ ++ q :: d :: l₂)
    ∧ (∃ core, sortFieldsByPriority fields = core ++ fields.filter (orphanB fields)
        ∧ ∀ f ∈ core, orphanB fields f = false) := by
  have hfnodup : fields.Nodup := List.Nodup.of_map _ hnames
  have huniq : ∀ x ∈ fields, ∀ y ∈ fields, x.name = y.name → x = y :=
    fun x hx y hy h => List.inj_on_of_nodup_map hnames hx hy h
  set titleF := fields.filter (fun f => !dependsOnTruthy f && isTitleField f) with htitleF
  set indepF := fields.filter (fun f => !dependsOnTruthy f && !isTitleField f) with hindepF
  set deps := fields.filter (fun f => dependsOnTruthy f) with hdepsdef
  set base := titleF ++ indepF.insertionSort priorityLe with hbase
  have hsort : sortFieldsByPriority fields
      = deps.foldl (fun acc e => spliceDependent e acc) base := rfl
  have hbasefields : ∀ x ∈ base, x ∈ fields := by
    intro x hx
    rcases List.mem_append.mp hx with h | h
    · exact (List.mem_filter.mp h).1
    · exact (List.mem_filter.mp ((List.perm_insertionSort priorityLe indepF).mem_iff.mp h)).1
  have hbasenondep : ∀ x ∈ base, dependsOnTruthy x = false := by
    intro x hx
    rcases List.mem_append.mp hx with h | h
    · have := (List.mem_filter.mp h).2
      simpa using (Bool.and_eq_true_iff.mp this).1
    · have := (List.mem_filter.mp
        ((List.perm_insertionSort priorityLe indepF).mem_iff.mp h)).2
      simpa using (Bool.and_eq_true_iff.mp this).1
  have hdepsfacts : ∀ e ∈ deps, e ∈ fields ∧ dependsOnTruthy e = true := by
    intro e he
    obtain ⟨h1, h2⟩ := List.mem_filter.mp he
    exact ⟨h1, h2⟩
  have hnondepbase : ∀ q ∈ fields, dependsOnTruthy q = false → q ∈ base := by
    intro q hq hqnd
    by_cases ht : isTitleField q = true
    · exact List.mem_append.mpr (Or.inl (List.mem_filter.mpr ⟨hq, by simp [hqnd, ht]⟩))
    · refine List.mem_append.mpr (Or.inr ?_)
      refine (List.perm_insertionSort priorityLe indepF).mem_iff.mpr ?_
      exact List.mem_filter.mpr ⟨hq, by simp [hqnd]; simpa using ht⟩
  refine ⟨sortFieldsByPriority_perm fields, ?_, ?_, ?_⟩
  · refine ⟨indepF.insertionSort priorityLe, ?_,
      List.perm_insertionSort priorityLe indepF,
      List.sorted_insertionSort priorityLe indepF⟩
    rw [hsort]
    rw [spliceFold_filter _ _ _ (fun d hd => by simp [(hdepsfacts d hd).2])]
    rw [hbase, List.filter_append]
    congr 1
    · exact List.filter_eq_self.mpr (fun x hx => by
        simp [hbasenondep x (List.mem_append.mpr (Or.inl hx))])
    · exact List.filter_eq_self.mpr (fun x hx => by
        simp [hbasenondep x (List.mem_append.mpr (Or.inr hx))])
  · intro d hd hdt q hq hqn
    have hqnd : dependsOnTruthy q = false := hindep d hd hdt q hq hqn
    rw [hsort]
    exact spliceFold_adj fields huniq deps base d q
      (hfnodup.filter _)
      (List.mem_filter.mpr ⟨hd, hdt⟩)
      (fun e he => (hdepsfacts e he).1)
      hbasefields
      (fun e he hne hcon =>
        hne (hshared e (hdepsfacts e he).1 d hd (hdepsfacts e he).2 hdt hcon))
      (hnondepbase q hq hqnd)
      hqn.symm
  · have h0 := spliceFold_orphan fields hindep deps base []
      hdepsfacts hbasefields (by simp)
      (fun f hf => by simp [orphanB, hbasenondep f hf])
      hnondepbase
    obtain ⟨main', hs, hm'⟩ := h0
    refine ⟨main', ?_, hm'⟩
    rw [hsort]
    have hb : base ++ [] = base := by simp
    rw [← hb, hs]
    simp only [List.nil_append]
    congr 1
    rw [hdepsdef, List.filter_filter]
    apply List.filter_congr
    intro f _
    unfold orphanB
    cases h : dependsOnTruthy f <;> simp [h]

def fldTitle : FormField := { type := .text, name := "name" }

def fldBody : FormField := { type := .textarea, name := "body" }

def fldPipeline : FormField :=
  { type := .select, name := "pipeline",
    options := some (.flat [{ label := "Sales", value := "1" }]) }

def fldStage : FormField :=
  { type := .select, name := "stage", dependsOn := some "pipeline",
    options := some (.byParent [("1", [{ label := "Todo", value := "1" }])]) }

/-- C4 (witness):  A pipeline→stage pair with a title field and a
textarea: the hypotheses of the theorem hold and it yields the permutation
property and the stage-right-after-pipeline placement. -/
theorem c4_witness :
    (([fldBody, fldStage, fldPipeline, fldTitle].map FormField.name).Nodup)
    ∧ (sortFieldsByPriority [fldBody, fldStage, fldPipeline, fldTitle]).Perm
        [fldBody, fldStage, fldPipeline, fldTitle]
    ∧ (∃ l₁ l₂, sortFieldsByPriority [fldBody, fldStage, fldPipeline, fldTitle]
        = l₁ ++ fldPipeline :: fldStage :: l₂) := by
  have h := c4_sortFieldsByPriority_spec [fldBody, fldStage, fldPipeline, fldTitle]
    (by decide) (by decide) (by decide)
  exact ⟨by decide, h.1,
    h.2.2.1 fldStage (by decide) (by decide) fldPipeline (by decide) (by decide)⟩

def cxParent : FormField :=
  { type := .select, name := "p",
    options := some (.flat [{ label := "o", value := "o" }]) }

def cxDepA : FormField := { type := .text, name := "a", dependsOn := some "p" }

def cxDepB : FormField := { type := .text, name := "b", dependsOn := some "p" }

/-- C4 (counterexample):  Two dependent fields declaring the same
parent: the splice places the later one (`b`) immediately after the
parent, pushing the earlier one (`a`) a slot further — so `a`, whose
declared parent is present, is *not* immediately after it, refuting the
claim as stated over every input list. -/
theorem c4_counterexample :
    sortFieldsByPriority [cxParent, cxDepA, cxDepB] = [cxParent, cxDepB, cxDepA]
    ∧ cxDepA.dependsOn = some cxParent.name
    ∧ [cxParent, cxDepB, cxDepA].indexOf cxDepA
      ≠ [cxParent, cxDepB, cxDepA].indexOf cxParent + 1 := by
  exact ⟨by decide, rfl, by decide⟩

/-! ## `normalizeFieldValue` (ProviderEntityForm/normalizeFieldValue.ts)

`value : unknown` is modelled by `JSValue`; objects are modelled by the
five attributes `toPrimitiveValue` reads (`value`, `id`, `key`, `name`,
`label`), each `Option JSValue` where `none` is an absent/undefined
property; JS numbers are exact integers. -/

inductive JSValue where
  | str (s : String)
  | num (n : Int)
  | bool (b : Bool)
  | null
  | undefined
  | arr (elems : List JSValue)
  | obj (value id key name label : Option JSValue)

/-- JS falsiness (`!value`) on the modelled values. -/
def isFalsy : JSValue → Bool
  | .undefined => true
  | .null => true
  | .bool b => !b
  | .num n => n == 0
  | .str s => s == ""
  | .arr _ => false
  | .obj _ _ _ _ _ => false

/-- JS `typeof value` being object (arrays, plain objects and `null`). -/
def isObjectLike : JSValue → Bool
  | .arr _ => true
  | .obj _ _ _ _ _ => true
  | .null => true
  | _ => false

/-- One step of the `??` chain: `null`/`undefined` propagate to the next
candidate. -/
def nullish : Option JSValue → Option JSValue
  | some .null => none
  | some .undefined => none
  | o => o

/-- Chain `value.value ?? value.id ?? value.key ?? value.name ?? value.label`;
arrays (and `null`) have none of the five properties. -/
def objChain : JSValue → Option JSValue
  | .obj v i k n l =>
    (nullish v) <|> ((nullish i) <|> ((nullish k) <|> ((nullish n) <|> nullish l)))
  | _ => none

/-- Extraction `toPrimitiveValue` (normalizeFieldValue.ts, lines 5-15). -/
def toPrimitiveValue (v : JSValue) : Option JSValue :=
  if isFalsy v then none
  else if isObjectLike v then
    match objChain v with
    | none => none
    | some c => if isFalsy c then none else some c
  else some v

-- JS `String(x)` on the modelled values (arrays stringify their elements
-- joined by commas, with `null`/`undefined` elements as empty).
mutual
def jsToString : JSValue → String
  | .str s => s
  | .num n => toString n
  | .bool true => "true"
  | .bool false => "false"
  | .null => "null"
  | .undefined => "undefined"
  | .obj _ _ _ _ _ => "[object Object]"
  | .arr xs => String.intercalate "," (jsArrStrings xs)
def jsArrStrings : List JSValue → List String
  | [] => []
  | v :: rest =>
    (match v with
     | .null => ""
     | .undefined => ""
     | _ => jsToString v) :: jsArrStrings rest
end

/-- JS split on commas, on the character list. -/
def splitCommaL : List Char → List (List Char)
  | [] => [[]]
  | c :: rest =>
    let r := splitCommaL rest
    if c = ',' then [] :: r
    else
      match r with
      | h :: t => (c :: h) :: t
      | [] => [[c]]

def splitComma (s : String) : List String :=
  (splitCommaL s.data).map fun l => ⟨l⟩

/-- JS `String.prototype.trim` (ASCII whitespace). -/
def jsTrim (s : String) : String := ⟨trimL s.data⟩

/-- The select-branch extraction: `toPrimitiveValue` of the first element
when the value is an array (`undefined` when empty), of the value itself
otherwise. -/
def selExtract (value : JSValue) : Option JSValue :=
  match value with
  | .arr xs => toPrimitiveValue (xs.headD .undefined)
  | _ => toPrimitiveValue value

/-- Normalization `normalizeFieldValue` (normalizeFieldValue.ts, lines 17-45).
`JSValue.undefined` is the `undefined` return. -/
def normalizeFieldValue (field : FormField) (value : JSValue) : JSValue :=
  if isFalsy value then .undefined
  else
    match field.type with
    | .multiselect =>
      match value with
      | .arr xs =>
        .arr (((xs.map toPrimitiveValue).filterMap
          (fun o => o.bind fun c => if isFalsy c then none else some c)).map
          fun c => JSValue.str (jsToString c))
      | .str s =>
        .arr ((((splitComma s).map jsTrim).filter fun t => t != "").map JSValue.str)
      | _ =>
        match toPrimitiveValue value with
        | none => .arr []
        | some c => .arr [.str (jsToString c)]
    | .select =>
      match selExtract value with
      | none => .str ""
      | some c => .str (jsToString c)
    | _ => value

def elemsOf : JSValue → List JSValue
  | .arr l => l
  | _ => []

def msField : FormField := { type := .multiselect, name := "labels" }

def selField : FormField := { type := .select, name := "stage" }

/-! ## C9: normalizing an already-normalized multiselect value -/

theorem normMulti_arr_strings (xs : List String) (hne : ∀ s ∈ xs, s ≠ "") :
    ((((xs.map JSValue.str).map toPrimitiveValue).filterMap
      (fun o => o.bind fun c => if isFalsy c then none else some c)).map
      fun c => JSValue.str (jsToString c)) = xs.map JSValue.str := by
  induction xs with
  | nil => rfl
  | cons s rest ih =>
    have hsb : (s == "") = false := beq_eq_false_iff_ne.mpr (hne s (by simp))
    have hprim : toPrimitiveValue (.str s) = some (.str s) := by
      unfold toPrimitiveValue
      simp [isFalsy, isObjectLike, hsb]
    have hfs : isFalsy (JSValue.str s) = false := by simp [isFalsy, hsb]
    simp only [List.map_cons, List.filterMap_cons, hprim, Option.some_bind, hfs,
      Bool.false_eq_true, if_false]
    rw [ih fun t ht => hne t (by simp [ht])]
    rfl

/-- C9 (amended):  For every multiselect field and every value that is
a sequence of non-empty plain strings, `normalizeFieldValue` returns the
same sequence unchanged.  (The original claim, quantified over all
sequences of plain strings, fails at `[""]`: the empty string is falsy and
is dropped, so the output of `normalizeFieldValue` is only guaranteed
fixed when no element is empty — see the counterexample.) -/
theorem c9_normalized_multiselect_fixed (field : FormField) (xs : List String)
    (hty : field.type = .multiselect) (hne : ∀ s ∈ xs, s ≠ "") :
    normalizeFieldValue field (.arr (xs.map .str)) = .arr (xs.map .str) := by
  unfold normalizeFieldValue
  rw [if_neg (by simp [isFalsy]), hty]
  exact congrArg JSValue.arr (normMulti_arr_strings xs hne)

/-- C9 (witness):  `["a", "b"]` is returned unchanged. -/
theorem c9_witness :
    msField.type = .multiselect
    ∧ normalizeFieldValue msField (.arr [.str "a", .str "b"])
      = .arr [.str "a", .str "b"] :=
  ⟨rfl, c9_normalized_multiselect_fixed msField ["a", "b"] rfl (by decide)⟩

/-- C9 (counterexample):  `[""]` is a sequence of plain strings, yet
normalizing it drops the falsy empty string instead of returning the
sequence unchanged. -/
theorem c9_counterexample :
    normalizeFieldValue msField (.arr [.str ""]) = .arr []
    ∧ JSValue.arr [] ≠ .arr [.str ""] :=
  ⟨rfl, by simp⟩

/-! ## C10: dropping falsy extracted primitives -/

/-- The corrected drop condition: an element is dropped exactly when it is
itself falsy (`0`, `""`, `false`, `null`, `undefined`), or it is
object-like and the `??` chain over `value, id, key, name, label` yields
no candidate or a falsy one (later attributes are not consulted once an
earlier one is non-nullish). -/
def droppedSpec (v : JSValue) : Bool :=
  isFalsy v
  || (isObjectLike v
      && (match objChain v with
          | none => true
          | some c => isFalsy c))

/-- The primitive a kept element contributes: the candidate of the chain for
object-like values, the value itself otherwise. -/
def specExtract (v : JSValue) : JSValue :=
  if isObjectLike v then (objChain v).getD .undefined else v

theorem toPrimitiveValue_eq (v : JSValue) :
    toPrimitiveValue v = if droppedSpec v then none else some (specExtract v) := by
  unfold toPrimitiveValue droppedSpec specExtract
  by_cases h1 : isFalsy v = true
  · simp [h1]
  · rw [if_neg h1]
    by_cases h2 : isObjectLike v = true
    · rw [if_pos h2]
      cases hc : objChain v with
      | none => simp [h1, h2, hc]
      | some c =>
        by_cases h3 : isFalsy c = true
        · simp [h1, h2, hc, h3]
        · simp [h1, h2, hc, h3]
    · rw [if_neg h2]
      simp [h1, h2]

theorem toPrimitiveValue_some_nonfalsy (v c : JSValue)
    (h : toPrimitiveValue v = some c) : isFalsy c = false := by
  unfold toPrimitiveValue at h
  by_cases h1 : isFalsy v = true
  · rw [if_pos h1] at h
    exact Option.noConfusion h
  · rw [if_neg h1] at h
    by_cases h2 : isObjectLike v = true
    · rw [if_pos h2] at h
      cases hc : objChain v with
      | none =>
        rw [hc] at h
        exact Option.noConfusion h
      | some c2 =>
        rw [hc] at h
        by_cases h3 : isFalsy c2 = true
        · simp only [h3, if_true] at h
          exact Option.noConfusion h
        · have h3f : isFalsy c2 = false := by simpa using h3
          simp only [h3f, Bool.false_eq_true, if_false] at h
          obtain rfl : c2 = c := by injection h
          exact h3f
    · rw [if_neg h2] at h
      obtain rfl : v = c := by injection h
      simpa using h1

theorem normMulti_arr_spec (xs : List JSValue) :
    (((xs.map toPrimitiveValue).filterMap
      (fun o => o.bind fun c => if isFalsy c then none else some c)).map
      fun c => JSValue.str (jsToString c))
    = ((xs.filter fun v => !droppedSpec v).map
        fun v => JSValue.str (jsToString (specExtract v))) := by
  induction xs with
  | nil => rfl
  | cons v rest ih =>
    cases hd : droppedSpec v with
    | true =>
      have hp : toPrimitiveValue v = none := by rw [toPrimitiveValue_eq, if_pos hd]
      simp only [List.map_cons, List.filterMap_cons, hp, Option.none_bind,
        List.filter_cons, hd, Bool.not_true, Bool.false_eq_true, if_false]
      exact ih
    | false =>
      have hp : toPrimitiveValue v = some (specExtract v) := by
        rw [toPrimitiveValue_eq, if_neg (by simp [hd])]
      have hnf := toPrimitiveValue_some_nonfalsy v _ hp
      simp only [List.map_cons, List.filterMap_cons, hp, Option.some_bind, hnf,
        Bool.false_eq_true, if_false, List.filter_cons, hd, Bool.not_false, if_true,
        List.map_cons]
      rw [ih]

/-- C10 (amended):  `normalizeFieldValue` treats a falsy extracted
primitive as absent: for a multiselect field, an array normalizes to
exactly its non-dropped elements' stringified extracted primitives, where
an element is dropped iff it is falsy or is object-like with a falsy (or
missing) first non-nullish attribute among `value,id,key,name,label`; a
string input never yields an empty segment (segments trimming to the empty
string are removed); and for a select field, a truthy input from which no
primitive can be extracted normalizes to `""`, not `undefined`.
(The characterization of the dropped objects in the original claim —
"no truthy `value`/`id`/`key`/`name`/`label` attribute" — is wrong: the
`??` chain stops at the first non-nullish attribute, so `{value: 0,
id: "x"}` is dropped despite its truthy `id`; see the counterexample.) -/
theorem c10_falsy_extraction_spec (field : FormField) :
    (field.type = .multiselect →
      ∀ xs : List JSValue, normalizeFieldValue field (.arr xs)
        = .arr ((xs.filter fun v => !droppedSpec v).map
            fun v => JSValue.str (jsToString (specExtract v))))
    ∧ (field.type = .multiselect →
        ∀ s : String, ∀ e ∈ elemsOf (normalizeFieldValue field (.str s)),
          e ≠ JSValue.str "")
    ∧ (field.type = .select → ∀ v, isFalsy v = false → selExtract v = none →
        normalizeFieldValue field v = .str "") := by
  refine ⟨?_, ?_, ?_⟩
  · intro hty xs
    unfold normalizeFieldValue
    rw [if_neg (by simp [isFalsy]), hty]
    exact congrArg JSValue.arr (normMulti_arr_spec xs)
  · intro hty s e he
    unfold normalizeFieldValue at he
    by_cases hs : isFalsy (.str s) = true
    · rw [if_pos hs] at he
      simp [elemsOf] at he
    · rw [if_neg hs, hty] at he
      simp only [elemsOf] at he
      obtain ⟨t, ht, rfl⟩ := List.mem_map.mp he
      have ht2 := (List.mem_filter.mp ht).2
      intro hcon
      have : t = "" := by injection hcon
      subst this
      simp at ht2
  · intro hty v hnf hsel
    unfold normalizeFieldValue
    rw [if_neg (by simp [hnf]), hty, hsel]

/-- C10 (witness):  `[0, "a", null]` keeps only `"a"`; the string
`"a, ,b"` drops its all-whitespace segment; and a select value with no
extractable attribute gives `""`. -/
theorem c10_witness :
    msField.type = .multiselect
    ∧ normalizeFieldValue msField (.arr [.num 0, .str "a", .null]) = .arr [.str "a"]
    ∧ (∀ e ∈ elemsOf (normalizeFieldValue msField (.str "a, ,b")), e ≠ JSValue.str "")
    ∧ normalizeFieldValue selField (.obj none none none none none) = .str "" := by
  have h := c10_falsy_extraction_spec msField
  have h2 := c10_falsy_extraction_spec selField
  refine ⟨rfl, ?_, h.2.1 rfl "a, ,b", h2.2.2 rfl (.obj none none none none none) rfl rfl⟩
  rw [h.1 rfl [.num 0, .str "a", .null]]
  rfl

/-- An object whose `value` property is `0` but whose `id` is a truthy
string. -/
def objZeroId : JSValue := .obj (some (.num 0)) (some (.str "x")) none none none

def hasTruthyAttr : JSValue → Bool
  | .obj v i k n l =>
    [v, i, k, n, l].any fun o =>
      match o with
      | some c => !isFalsy c
      | none => false
  | _ => false

/-- The drop condition the original claim states: the element is `0`, `""`,
`null`, or an object with no truthy `value`/`id`/`key`/`name`/`label`
attribute. -/
def claimDropKind (v : JSValue) : Bool :=
  (match v with
   | .num 0 => true
   | .str "" => true
   | .null => true
   | _ => false)
  || (isObjectLike v && !hasTruthyAttr v)

/-- C10 (counterexample):  `{value: 0, id: "x"}` is none of the
claimed drop kinds — it has a truthy `id` attribute — yet the `??` chain
stops at `value = 0` and the element is silently dropped. -/
theorem c10_counterexample :
    claimDropKind objZeroId = false
    ∧ normalizeFieldValue msField (.arr [objZeroId]) = .arr [] :=
  ⟨rfl, rfl⟩

end Telebiz
